import Mathlib

/-!
Verification of the config-tool helper layer (src/config_tool/helpers.py and
the override/classifier handlers in src/config_tool/app.py).

Modelling conventions:
* Python/JSON values are the inductive `JValue`.  JSON integers are
  arbitrary-precision `Int`; float literals decode to their exact decimal
  value in canonical form (see `JValue`), with `NaN` and `±Infinity` as
  dedicated constructors.
* Python `dict`s are insertion-ordered association lists (`Obj`); `Obj.set`
  replaces the value of the first matching key in place (keeping the key's
  position) or appends a fresh key at the end, exactly as CPython dicts do.
* In-place mutation becomes explicit state passing: a Python function that
  mutates `config` is a Lean function returning the updated `Obj`.
* `json.loads` is modelled by `jsonLoads`, a fuel-based recursive descent
  reader of the strict default `json.loads` grammar (objects, arrays,
  strings with escapes and surrogate pairs, integers, floats,
  `NaN`/`Infinity`, `true`/`false`/`null`, strict whitespace), and
  `json.dumps` by `jsonDumps`.
-/

/-- Python/JSON values.  `num` is an `int` (arbitrary precision).  A finite
`float` produced by decoding a JSON literal with a fraction or exponent part
is `flt m e`, the exact decimal value `m × 10^e` in canonical form (all
factors of ten moved out of the mantissa), so equal decimal literals such as
`1.5`, `1.50` and `15e-1` share one representation; `nan` and `inf` are the
`NaN`/`Infinity`/`-Infinity` constants Python's decoder accepts.  Exact
decimals refine IEEE doubles: two distinct decimals can round to the same
double, but no claim compares float values, and every claim's concrete
inputs are representation-exact. -/
inductive JValue where
  | str (s : String)
  | num (n : Int)
  | flt (m : Int) (e : Int)
  | nan
  | inf (neg : Bool)
  | bool (b : Bool)
  | null
  | obj (fields : List (String × JValue))
  | arr (items : List JValue)
  deriving Repr

abbrev Obj := List (String × JValue)

/-- `d.get(k)` on a Python dict: the value at the first (unique) matching key. -/
def Obj.get? (o : Obj) (k : String) : Option JValue :=
  match o with
  | [] => none
  | (k', v) :: rest => if k' = k then some v else Obj.get? rest k

/-- `d[k] = v` on a Python dict: replace in place at the first matching key,
else append at the end (insertion order). -/
def Obj.set (o : Obj) (k : String) (v : JValue) : Obj :=
  match o with
  | [] => [(k, v)]
  | (k', v') :: rest => if k' = k then (k, v) :: rest else (k', v') :: Obj.set rest k v

def Obj.keys (o : Obj) : List String := o.map Prod.fst

theorem Obj.get?_set_self (o : Obj) (k : String) (v : JValue) :
    Obj.get? (Obj.set o k v) k = some v := by
  induction o with
  | nil => simp [Obj.set, Obj.get?]
  | cons hd tl ih =>
    obtain ⟨k', v'⟩ := hd
    by_cases h : k' = k
    · simp [Obj.set, Obj.get?, h]
    · simp [Obj.set, Obj.get?, h, ih]

theorem Obj.get?_set_ne (o : Obj) (k k' : String) (v : JValue) (h : k ≠ k') :
    Obj.get? (Obj.set o k v) k' = Obj.get? o k' := by
  induction o with
  | nil => simp [Obj.set, Obj.get?, h]
  | cons hd tl ih =>
    obtain ⟨k₀, v₀⟩ := hd
    by_cases h0 : k₀ = k
    · subst h0
      simp [Obj.set, Obj.get?, h]
    · simp [Obj.set, Obj.get?, h0, ih]

/-- Writing back the value already stored at a key leaves the dict unchanged. -/
theorem Obj.set_get_eq (o : Obj) (k : String) (v : JValue)
    (h : Obj.get? o k = some v) : Obj.set o k v = o := by
  induction o with
  | nil => simp [Obj.get?] at h
  | cons hd tl ih =>
    obtain ⟨k', v'⟩ := hd
    by_cases hk : k' = k
    · subst hk
      simp [Obj.get?] at h
      simp [Obj.set, h]
    · simp [Obj.get?, hk] at h
      simp [Obj.set, hk, ih h]

theorem Obj.set_set_same (o : Obj) (k : String) (v w : JValue) :
    Obj.set (Obj.set o k v) k w = Obj.set o k w := by
  induction o with
  | nil => simp [Obj.set]
  | cons hd tl ih =>
    obtain ⟨k', v'⟩ := hd
    by_cases hk : k' = k
    · simp [Obj.set, hk]
    · simp [Obj.set, hk, ih]

theorem Obj.get?_eq_none_of_not_mem_keys (o : Obj) (k : String)
    (h : k ∉ Obj.keys o) : Obj.get? o k = none := by
  induction o with
  | nil => rfl
  | cons hd tl ih =>
    obtain ⟨k', v'⟩ := hd
    simp only [Obj.keys, List.map_cons, List.mem_cons, not_or] at h
    simp only [Obj.get?]
    rw [if_neg (fun hh => h.1 hh.symm)]
    exact ih h.2

/-- Python truthiness of an optional value (`dict.get` result): `None`, `False`,
`0`, `""`, `{}` and `[]` are falsy, everything else truthy. -/
def truthy : Option JValue → Bool
  | none => false
  | some (JValue.str s) => !(s == "")
  | some (JValue.num n) => !(n == 0)
  | some (JValue.flt m _) => !(m == 0)
  | some JValue.nan => true
  | some (JValue.inf _) => true
  | some (JValue.bool b) => b
  | some JValue.null => false
  | some (JValue.obj []) => false
  | some (JValue.obj (_ :: _)) => true
  | some (JValue.arr []) => false
  | some (JValue.arr (_ :: _)) => true

/-- Decimal rendering of the finite float `m × 10^e`, as Python prints the
corresponding double for the moderate magnitudes occurring here
(`str(1.5) = "1.5"`, `str(15.0) = "15.0"`, `str(0.001) = "0.001"`).  The
exponent notation Python switches to at extreme magnitudes is not modelled;
no claim exercises the textual form of a float. -/
def fltRepr (m : Int) (e : Int) : String :=
  let sign := if m < 0 then "-" else ""
  let ds := (toString m.natAbs).data
  if 0 ≤ e then
    sign ++ String.mk ds ++ String.mk (List.replicate e.toNat '0') ++ ".0"
  else
    let k := (-e).toNat
    if k < ds.length then
      sign ++ String.mk (ds.take (ds.length - k)) ++ "." ++ String.mk (ds.drop (ds.length - k))
    else
      sign ++ "0." ++ String.mk (List.replicate (k - ds.length) '0') ++ String.mk ds

/-! ### Model of `json.dumps` (default options: `ensure_ascii=True`,
separators `", "` and `": "`). -/

def hexDigitChar (n : Nat) : Char :=
  if n < 10 then Char.ofNat (48 + n) else Char.ofNat (87 + (n - 10))

def hex4 (n : Nat) : String :=
  String.mk [hexDigitChar ((n / 4096) % 16), hexDigitChar ((n / 256) % 16),
             hexDigitChar ((n / 16) % 16), hexDigitChar (n % 16)]

/-- Escape one character the way `json.dumps` does with `ensure_ascii=True`. -/
def jsonEscapeChar (c : Char) : String :=
  if c = '"' then "\\\""
  else if c = '\\' then "\\\\"
  else if c = '\n' then "\\n"
  else if c = '\t' then "\\t"
  else if c = '\r' then "\\r"
  else if c.toNat = 8 then "\\b"
  else if c.toNat = 12 then "\\f"
  else if c.toNat < 32 ∨ 127 ≤ c.toNat then
    if c.toNat ≤ 65535 then "\\u" ++ hex4 c.toNat
    else
      let v := c.toNat - 65536
      "\\u" ++ hex4 (55296 + v / 1024) ++ "\\u" ++ hex4 (56320 + v % 1024)
  else String.singleton c

def jsonQuote (s : String) : String :=
  "\"" ++ String.join (s.data.map jsonEscapeChar) ++ "\""

mutual

/-- Model of `json.dumps` with its default separators, as used by
`value_to_text` (helpers.py line 53). -/
def jsonDumps : JValue → String
  | .str s => jsonQuote s
  | .num n => toString n
  | .flt m e => fltRepr m e
  | .nan => "NaN"
  | .inf b => if b then "-Infinity" else "Infinity"
  | .bool b => if b then "true" else "false"
  | .null => "null"
  | .obj fields => "\x7b" ++ jsonDumpsFields fields ++ "\x7d"
  | .arr items => "[" ++ jsonDumpsItems items ++ "]"

def jsonDumpsFields : List (String × JValue) → String
  | [] => ""
  | [(k, v)] => jsonQuote k ++ ": " ++ jsonDumps v
  | (k, v) :: rest => jsonQuote k ++ ": " ++ jsonDumps v ++ ", " ++ jsonDumpsFields rest

def jsonDumpsItems : List JValue → String
  | [] => ""
  | [v] => jsonDumps v
  | v :: rest => jsonDumps v ++ ", " ++ jsonDumpsItems rest

end

/-! ### Model of `json.loads` (strict default decoder).

A fuel-based recursive-descent reader for the grammar Python's `json.loads`
accepts by default: objects, arrays, strings with the standard escapes
(surrogate-pair `\uXXXX` escapes combined into one code point, as Python
combines them), `true`/`false`/`null`, integer literals, float literals
(fraction and/or exponent part, decoded to the canonical exact decimal
`JValue.flt`), and the `NaN`/`Infinity`/`-Infinity` constants.  The one
input family outside the model: a lone surrogate `\uXXXX` escape, which
Python decodes to a string containing an unpaired surrogate — a value no
Unicode string (and no Lean `String`) can represent — is treated as a decode
error here. -/

/-- JSON whitespace accepted between tokens: space, tab, newline, return. -/
def skipWs : List Char → List Char
  | [] => []
  | c :: rest =>
    if c = ' ' ∨ c = '\t' ∨ c = '\n' ∨ c = '\r' then skipWs rest else c :: rest

def hexVal? (c : Char) : Option Nat :=
  if 48 ≤ c.toNat ∧ c.toNat ≤ 57 then some (c.toNat - 48)
  else if 97 ≤ c.toNat ∧ c.toNat ≤ 102 then some (c.toNat - 87)
  else if 65 ≤ c.toNat ∧ c.toNat ≤ 70 then some (c.toNat - 55)
  else none

/-- Parse the body of a JSON string after the opening quote, returning the
decoded string and the input after the closing quote. -/
def parseStringBody : Nat → List Char → Option (String × List Char)
  | 0, _ => none
  | _, [] => none
  | fuel+1, c :: rest =>
    if c = '"' then some ("", rest)
    else if c = '\\' then
      match rest with
      | [] => none
      | e :: rest2 =>
        if e = 'u' then
          match rest2 with
          | h1 :: h2 :: h3 :: h4 :: rest3 =>
            match hexVal? h1, hexVal? h2, hexVal? h3, hexVal? h4 with
            | some a, some b, some c2, some d =>
              let code := ((a * 16 + b) * 16 + c2) * 16 + d
              if 55296 ≤ code ∧ code ≤ 56319 then
                match rest3 with
                | '\\' :: 'u' :: g1 :: g2 :: g3 :: g4 :: rest4 =>
                  match hexVal? g1, hexVal? g2, hexVal? g3, hexVal? g4 with
                  | some a2, some b2, some c3, some d2 =>
                    let code2 := ((a2 * 16 + b2) * 16 + c3) * 16 + d2
                    if 56320 ≤ code2 ∧ code2 ≤ 57343 then
                      let cp := 65536 + (code - 55296) * 1024 + (code2 - 56320)
                      match parseStringBody fuel rest4 with
                      | some (s, r) => some (String.singleton (Char.ofNat cp) ++ s, r)
                      | none => none
                    else none
                  | _, _, _, _ => none
                | _ => none
              else if 56320 ≤ code ∧ code ≤ 57343 then none
              else
                match parseStringBody fuel rest3 with
                | some (s, r) => some (String.singleton (Char.ofNat code) ++ s, r)
                | none => none
            | _, _, _, _ => none
          | _ => none
        else
          let esc : Option Char :=
            if e = '"' then some '"'
            else if e = '\\' then some '\\'
            else if e = '/' then some '/'
            else if e = 'b' then some (Char.ofNat 8)
            else if e = 'f' then some (Char.ofNat 12)
            else if e = 'n' then some '\n'
            else if e = 'r' then some '\r'
            else if e = 't' then some '\t'
            else none
          match esc with
          | none => none
          | some ch =>
            match parseStringBody fuel rest2 with
            | some (s, r) => some (String.singleton ch ++ s, r)
            | none => none
    else if c.toNat < 32 then none
    else
      match parseStringBody fuel rest with
      | some (s, r) => some (String.singleton c ++ s, r)
      | none => none

def takeDigits : List Char → List Char × List Char
  | [] => ([], [])
  | c :: rest =>
    if c.isDigit then
      let (ds, r) := takeDigits rest
      (c :: ds, r)
    else ([], c :: rest)

def digitsToNat (ds : List Char) : Nat :=
  ds.foldl (fun acc c => acc * 10 + (c.toNat - 48)) 0

/-- Canonical decimal float: factor every power of ten out of the mantissa,
so equal decimal values share one representation.  The fuel `|m|` bounds the
number of factors of ten a nonzero mantissa can shed. -/
def canonFltAux : Nat → Int → Int → JValue
  | 0, m, e => JValue.flt m e
  | fuel+1, m, e =>
    if m = 0 then JValue.flt 0 0
    else if m % 10 = 0 then canonFltAux fuel (m / 10) (e + 1)
    else JValue.flt m e

def canonFlt (m e : Int) : JValue := canonFltAux (m.natAbs + 1) m e

/-- Parse a JSON number at the head of the input, per the grammar
`-? (0 | [1-9][0-9]*) (\. [0-9]+)? ([eE] [-+]? [0-9]+)?` of Python's
decoder.  A bare integer part yields `num`; a fraction and/or exponent part
marks a float literal, decoded to its exact decimal value.  As in Python, a
`.` or `e` not followed by the digits its group requires is not consumed:
the number ends at the integer part and the surrounding parser rejects the
leftover input. -/
def parseNumberAt (cs : List Char) : Option (JValue × List Char) :=
  let (neg, cs1) :=
    match cs with
    | '-' :: rest => (true, rest)
    | _ => (false, cs)
  match takeDigits cs1 with
  | ([], _) => none
  | (d :: ds, rest0) =>
    if d = '0' ∧ ds ≠ [] then none
    else
      let intDigits := d :: ds
      let fracPart : List Char × List Char :=
        match rest0 with
        | '.' :: r =>
          match takeDigits r with
          | ([], _) => ([], rest0)
          | (fs, r') => (fs, r')
        | _ => ([], rest0)
      let fracDigits := fracPart.1
      let rest1 := fracPart.2
      let expPart : Option Int × List Char :=
        match rest1 with
        | e :: r =>
          if e = 'e' ∨ e = 'E' then
            let signed : Bool × List Char :=
              match r with
              | '+' :: rr => (false, rr)
              | '-' :: rr => (true, rr)
              | _ => (false, r)
            match takeDigits signed.2 with
            | ([], _) => (none, rest1)
            | (es, r') =>
              let ev : Int := Int.ofNat (digitsToNat es)
              (some (if signed.1 then -ev else ev), r')
          else (none, rest1)
        | [] => (none, rest1)
      if fracDigits = [] ∧ expPart.1 = none then
        let n : Int := Int.ofNat (digitsToNat intDigits)
        some (.num (if neg then -n else n), rest0)
      else
        let mant : Int := Int.ofNat (digitsToNat (intDigits ++ fracDigits))
        let mant := if neg then -mant else mant
        let ex : Int := (expPart.1.getD 0) - Int.ofNat fracDigits.length
        some (canonFlt mant ex, expPart.2)

mutual

/-- Parse one JSON value at the head of the input (no leading whitespace). -/
def parseValue : Nat → List Char → Option (JValue × List Char)
  | 0, _ => none
  | fuel+1, cs =>
    match cs with
    | [] => none
    | c :: rest =>
      if c = '"' then
        match parseStringBody (rest.length + 1) rest with
        | some (s, r) => some (.str s, r)
        | none => none
      else if c = '\x7b' then parseObjectRest fuel (skipWs rest)
      else if c = '[' then parseArrayRest fuel (skipWs rest)
      else if c = 't' then
        match cs with
        | 't' :: 'r' :: 'u' :: 'e' :: r => some (.bool true, r)
        | _ => none
      else if c = 'f' then
        match cs with
        | 'f' :: 'a' :: 'l' :: 's' :: 'e' :: r => some (.bool false, r)
        | _ => none
      else if c = 'n' then
        match cs with
        | 'n' :: 'u' :: 'l' :: 'l' :: r => some (.null, r)
        | _ => none
      else if c = 'N' then
        match cs with
        | 'N' :: 'a' :: 'N' :: r => some (.nan, r)
        | _ => none
      else if c = 'I' then
        match cs with
        | 'I' :: 'n' :: 'f' :: 'i' :: 'n' :: 'i' :: 't' :: 'y' :: r => some (.inf false, r)
        | _ => none
      else if c = '-' then
        match cs with
        | '-' :: 'I' :: 'n' :: 'f' :: 'i' :: 'n' :: 'i' :: 't' :: 'y' :: r =>
          some (.inf true, r)
        | _ => parseNumberAt cs
      else parseNumberAt cs

/-- After an opening brace and whitespace: an empty object or its members. -/
def parseObjectRest : Nat → List Char → Option (JValue × List Char)
  | 0, _ => none
  | fuel+1, cs =>
    match cs with
    | '\x7d' :: r => some (.obj [], r)
    | _ => parseMembers fuel cs []

/-- Members of an object; duplicate keys are overwritten like Python dict
insertion (last value wins, first position kept). -/
def parseMembers : Nat → List Char → Obj → Option (JValue × List Char)
  | 0, _, _ => none
  | fuel+1, cs, acc =>
    match cs with
    | '"' :: rest =>
      match parseStringBody (rest.length + 1) rest with
      | some (k, r1) =>
        match skipWs r1 with
        | ':' :: r2 =>
          match parseValue fuel (skipWs r2) with
          | some (v, r3) =>
            match skipWs r3 with
            | ',' :: r4 => parseMembers fuel (skipWs r4) (Obj.set acc k v)
            | '\x7d' :: r4 => some (.obj (Obj.set acc k v), r4)
            | _ => none
          | none => none
        | _ => none
      | none => none
    | _ => none

/-- After an opening bracket and whitespace: an empty array or its items. -/
def parseArrayRest : Nat → List Char → Option (JValue × List Char)
  | 0, _ => none
  | fuel+1, cs =>
    match cs with
    | ']' :: r => some (.arr [], r)
    | _ => parseItems fuel cs []

def parseItems : Nat → List Char → List JValue → Option (JValue × List Char)
  | 0, _, _ => none
  | fuel+1, cs, acc =>
    match parseValue fuel cs with
    | some (v, r1) =>
      match skipWs r1 with
      | ',' :: r2 => parseItems fuel (skipWs r2) (acc ++ [v])
      | ']' :: r2 => some (.arr (acc ++ [v]), r2)
      | _ => none
    | none => none

end

/-- Model of Python's `json.loads`: decode exactly one JSON document with
optional surrounding whitespace; trailing garbage is a decode error.  The fuel
bound exceeds any possible recursion depth, since every nested parse follows
at least one consumed input character. -/
def jsonLoads (s : String) : Option JValue :=
  match parseValue (3 * s.length + 16) (skipWs s.data) with
  | some (v, rest) => if skipWs rest = [] then some v else none
  | none => none

/-! ### Python string primitives

`str.strip`, `str.split(sep, 1)`, `str.upper` and `str.startswith` are
modelled over the character list of the string.  `pyStrip` strips the ASCII
whitespace characters Python strips on the inputs occurring here. -/

def isPyWs (c : Char) : Bool :=
  c == ' ' || c == '\t' || c == '\n' || c == '\r' || c == '\x0b' || c == '\x0c'

def dropLeadingWs : List Char → List Char
  | [] => []
  | c :: rest => if isPyWs c then dropLeadingWs rest else c :: rest

/-- Python `str.strip()`: drop leading and trailing whitespace. -/
def pyStrip (s : String) : String :=
  String.mk (List.reverse (dropLeadingWs (List.reverse (dropLeadingWs s.data))))

/-- Python `str.upper()` (ASCII inputs). -/
def pyUpper (s : String) : String :=
  String.mk (s.data.map Char.toUpper)

/-- Python `s.startswith(c)` for a single character. -/
def startsWithChar (s : String) (c : Char) : Bool :=
  match s.data with
  | [] => false
  | c' :: _ => c' == c

/-- Python `s.split(sep, 1)` on characters: the part before the first
separator, and (when a separator occurs) the remainder after it. -/
def splitFirstAt (sep : Char) : List Char → List Char × Option (List Char)
  | [] => ([], none)
  | c :: rest =>
    if c = sep then ([], some rest)
    else
      let (pre, suf) := splitFirstAt sep rest
      (c :: pre, suf)

/-! ### The helper functions of src/config_tool/helpers.py -/

/-- `value_to_text` (helpers.py lines 51-56): dicts and lists serialize to
JSON text, booleans to the literal words, `None` to empty text, everything
else via `str(...)`. -/
def value_to_text : JValue → String
  | .obj o => jsonDumps (.obj o)
  | .arr a => jsonDumps (.arr a)
  | .bool b => if b then "true" else "false"
  | .null => ""
  | .str s => s
  | .num n => toString n
  | .flt m e => fltRepr m e
  | .nan => "nan"
  | .inf b => if b then "-inf" else "inf"

/-- `parse_arg_value` (helpers.py lines 59-68): strip; empty becomes `""`;
text starting with a brace or bracket is JSON-decoded with fallback to the
raw text on `JSONDecodeError`; everything else passes through as a string. -/
def parse_arg_value (raw_value : String) : JValue :=
  let cleaned := pyStrip raw_value
  if cleaned = "" then .str ""
  else if startsWithChar cleaned '\x7b' || startsWithChar cleaned '[' then
    match jsonLoads cleaned with
    | some v => v
    | none => .str raw_value
  else .str raw_value

/-- Matches `isinstance(x, dict)` on a `dict.get` result. -/
def asObj : Option JValue → Option Obj
  | some (JValue.obj o) => some o
  | _ => none

/-- `merge_dict` (helpers.py lines 190-196): for each override entry, merge
recursively when both sides are dicts, otherwise replace outright.  The
in-place mutation of `base` becomes a returned value. -/
def merge_dict (base : Obj) (overrides : Obj) : Obj :=
  match overrides with
  | [] => base
  | (key, JValue.obj o2) :: rest =>
    match asObj (Obj.get? base key) with
    | some o1 => merge_dict (Obj.set base key (JValue.obj (merge_dict o1 o2))) rest
    | none => merge_dict (Obj.set base key (JValue.obj o2)) rest
  | (key, value) :: rest => merge_dict (Obj.set base key value) rest
termination_by sizeOf overrides

/-- `ensure_section` (helpers.py lines 39-48): walk all but the last path key,
replacing anything that is missing or not a dict by an empty dict; at the
leaf, install a (deep copy of the) default only when absent; return the node
at the leaf.  `none` models the `IndexError` Python raises on an empty path.
The updated document is returned alongside the returned node. -/
def ensure_section (config : Obj) (path : List String) (default : JValue) :
    Option (Obj × JValue) :=
  match path with
  | [] => none
  | [leaf] =>
    match Obj.get? config leaf with
    | some v => some (config, v)
    | none => some (Obj.set config leaf default, default)
  | key :: rest =>
    let child : Obj :=
      match asObj (Obj.get? config key) with
      | some o => o
      | none => []
    match ensure_section child rest default with
    | some (child', v) => some (Obj.set config key (JValue.obj child'), v)
    | none => none

/-- Python `d.get(k) == s` for a string literal `s`: only a `str` value can
compare equal to a string. -/
def getEqStr (v : Option JValue) (s : String) : Bool :=
  match v with
  | some (JValue.str t) => t == s
  | _ => false

/-- The `target_store` half of `normalize_store_config`
(helpers.py lines 218-227). -/
def normalize_target (config : Obj) : Obj × List String :=
  match asObj (Obj.get? config "target_store") with
  | some ts =>
    let renamed := getEqStr (Obj.get? ts "name") "custom"
    let ts1 :=
      if renamed then Obj.set ts "name" (JValue.str "cosine_similarity") else ts
    let notes :=
      if renamed then ["target store renamed from legacy \x27custom\x27 to \x27cosine_similarity\x27"]
      else []
    let ts2 :=
      match asObj (Obj.get? ts1 "args") with
      | some _ => ts1
      | none => Obj.set ts1 "args" (JValue.obj [])
    (Obj.set config "target_store" (JValue.obj ts2), notes)
  | none =>
    (Obj.set config "target_store"
        (JValue.obj [("name", JValue.str "cosine_similarity"), ("args", JValue.obj [])]),
      ["target store set to cosine_similarity (missing section)"])

/-- The `source_store` half of `normalize_store_config`
(helpers.py lines 229-238).  Note that clearing a truthy `args` emits no
note in the source. -/
def normalize_source (config : Obj) : Obj × List String :=
  match asObj (Obj.get? config "source_store") with
  | some ss =>
    let forced := !(getEqStr (Obj.get? ss "name") "custom")
    let ss1 :=
      if forced then Obj.set ss "name" (JValue.str "custom") else ss
    let notes :=
      if forced then ["source store forced to \x27custom\x27 (only supported option)"]
      else []
    let ss2 :=
      if truthy (Obj.get? ss1 "args") then Obj.set ss1 "args" (JValue.obj []) else ss1
    (Obj.set config "source_store" (JValue.obj ss2), notes)
  | none =>
    (Obj.set config "source_store"
        (JValue.obj [("name", JValue.str "custom"), ("args", JValue.obj [])]),
      ["source store reset to required \x27custom\x27 store"])

/-- `normalize_store_config` (helpers.py lines 215-240): repair the target
store, then the source store, collecting notes in order. -/
def normalize_store_config (config : Obj) : Obj × List String :=
  ((normalize_source (normalize_target config).1).1,
    (normalize_target config).2 ++ (normalize_source (normalize_target config).1).2)

/-- The materialization loop at the end of `render_args_editor`
(helpers.py lines 181-187): rows are (parameter, value) text pairs; blank
(post-trim) names are skipped; values decode via `parse_arg_value`; later
duplicate names overwrite earlier ones. -/
def materialize_rows (acc : Obj) : List (String × String) → Obj
  | [] => acc
  | (p, v) :: rest =>
    let name := pyStrip p
    materialize_rows
      (if name = "" then acc else Obj.set acc name (parse_arg_value v)) rest

/-- The `updated` mapping returned by `render_args_editor`. -/
def render_args_update (rows : List (String × String)) : Obj :=
  materialize_rows [] rows

/-- The mode/platform decomposition in `classifier_help`
(helpers.py lines 312-319): `"mock"` carries no platform; otherwise split at
the first underscore, upper-casing the platform half. -/
def classifier_split (name : String) : String × String :=
  if name = "mock" then ("mock", "")
  else
    match splitFirstAt '_' name.data with
    | (_, none) => (name, "")
    | (pre, some suf) => (String.mk pre, pyUpper (String.mk suf))

/-- The decomposition of the stored classifier name in app.py lines 481-489:
`"mock"` carries no platform; otherwise split at the first underscore with
the platform kept as stored (lower-case). -/
def classifier_decompose (name : String) : String × String :=
  if name = "mock" then ("mock", "")
  else
    match splitFirstAt '_' name.data with
    | (_, none) => (name, "")
    | (pre, some suf) => (String.mk pre, String.mk suf)

/-- The recomposition of the classifier name in app.py lines 540-543:
an empty mode yields the empty name, an empty platform yields the bare mode,
otherwise `mode_platform`. -/
def classifier_recompose (mode platform : String) : String :=
  if mode = "" then ""
  else if platform = "" then mode
  else mode ++ "_" ++ platform

/-- The apply-overrides button handler (app.py lines 580-588): decode the
payload, require a top-level JSON object, and only then merge into the live
document.  The error branches return the document untouched together with the
message, modelling the exception caught before any merge happens. -/
def apply_overrides (config : Obj) (text : String) : Obj × Option String :=
  match jsonLoads text with
  | some (JValue.obj o) => (merge_dict config o, none)
  | some _ => (config, some "Overrides must be a JSON object")
  | none => (config, some "JSONDecodeError")

/-! ### Claims -/

/-- Claim C8: the classifier name `"reasoning_openai"` decomposes to mode
`"reasoning"` and platform `"OPENAI"` (upper-cased, as `classifier_help`
computes it; the stored lower-case half is `"openai"` in the app's own
decomposition); recomposing mode `"reasoning"` with platform `"openai"`
yields `"reasoning_openai"`; the special mode `"mock"` carries no platform. -/
theorem c8_classifier_name_composite :
    classifier_split "reasoning_openai" = ("reasoning", "OPENAI")
      ∧ classifier_decompose "reasoning_openai" = ("reasoning", "openai")
      ∧ classifier_recompose "reasoning" "openai" = "reasoning_openai"
      ∧ classifier_split "mock" = ("mock", "")
      ∧ classifier_decompose "mock" = ("mock", "")
      ∧ classifier_recompose "mock" "" = "mock" :=
  ⟨rfl, rfl, rfl, rfl, rfl, rfl⟩

theorem materialize_rows_append (xs ys : List (String × String)) (acc : Obj) :
    materialize_rows acc (xs ++ ys) = materialize_rows (materialize_rows acc xs) ys := by
  induction xs generalizing acc with
  | nil => rfl
  | cons hd tl ih =>
    obtain ⟨p, v⟩ := hd
    simp only [List.cons_append, materialize_rows]
    exact ih _

theorem materialize_rows_filter_blank (rows : List (String × String)) (acc : Obj) :
    materialize_rows acc rows
      = materialize_rows acc (rows.filter (fun r => !(pyStrip r.1 == ""))) := by
  induction rows generalizing acc with
  | nil => rfl
  | cons hd tl ih =>
    obtain ⟨p, v⟩ := hd
    by_cases h : pyStrip p = ""
    · simp [materialize_rows, h, List.filter_cons, ih]
    · have hb : (!(pyStrip p == "")) = true := by simp [h]
      simp [materialize_rows, h, List.filter_cons, hb, ih]

/-- Claim C9: materializing an args table skips rows whose parameter name is
blank after trimming, keys the result by the trimmed name with the decoded
value, and lets a later duplicate-named row overwrite the earlier value; the
rows `("", "5"), ("k", "v")` materialize to exactly `{"k": "v"}`. -/
theorem c9_render_args_materialization :
    render_args_update [("", "5"), ("k", "v")] = [("k", JValue.str "v")]
  ∧ (∀ rows : List (String × String),
      render_args_update rows
        = render_args_update (rows.filter (fun r => !(pyStrip r.1 == ""))))
  ∧ (∀ (rows : List (String × String)) (n v : String), pyStrip n ≠ "" →
      Obj.get? (render_args_update (rows ++ [(n, v)])) (pyStrip n)
        = some (parse_arg_value v)) := by
  refine ⟨rfl, ?_, ?_⟩
  · intro rows
    exact materialize_rows_filter_blank rows []
  · intro rows n v hn
    unfold render_args_update
    rw [materialize_rows_append]
    simp only [materialize_rows, if_neg hn]
    exact Obj.get?_set_self _ _ _

theorem c9_render_args_materialization_witness :
    pyStrip "k" ≠ ""
      ∧ Obj.get? (render_args_update ([("k", "v")] ++ [("k", "w")])) (pyStrip "k")
          = some (parse_arg_value "w") :=
  ⟨by decide, c9_render_args_materialization.2.2 [("k", "v")] "k" "w" (by decide)⟩

theorem parse_arg_value_of_trim_empty (raw : String) (h : pyStrip raw = "") :
    parse_arg_value raw = JValue.str "" := by
  simp [parse_arg_value, h]

theorem parse_arg_value_passthrough (raw : String) (h : pyStrip raw ≠ "")
    (h1 : startsWithChar (pyStrip raw) '\x7b' = false)
    (h2 : startsWithChar (pyStrip raw) '[' = false) :
    parse_arg_value raw = JValue.str raw := by
  simp [parse_arg_value, h, h1, h2]

theorem parse_arg_value_json_ok (raw : String) (v : JValue)
    (hb : (startsWithChar (pyStrip raw) '\x7b' || startsWithChar (pyStrip raw) '[') = true)
    (hj : jsonLoads (pyStrip raw) = some v) :
    parse_arg_value raw = v := by
  have hne : ¬ (pyStrip raw = "") := by
    intro h0
    rw [h0] at hb
    simp [startsWithChar] at hb
  simp [parse_arg_value, hne, hb, hj]

theorem parse_arg_value_json_fail (raw : String)
    (hb : (startsWithChar (pyStrip raw) '\x7b' || startsWithChar (pyStrip raw) '[') = true)
    (hj : jsonLoads (pyStrip raw) = none) :
    parse_arg_value raw = JValue.str raw := by
  have hne : ¬ (pyStrip raw = "") := by
    intro h0
    rw [h0] at hb
    simp [startsWithChar] at hb
  simp [parse_arg_value, hne, hb, hj]

/-- Claim C5: `parse_arg_value` branch behavior, for every input text: text
that trims to empty decodes to the empty string; text whose trimmed form
starts with a brace or bracket is JSON-decoded when possible and falls back
to the raw text verbatim on decode failure; all other text passes through
unchanged; and `"[1, 2, 3]"` decodes to the three-element numeric sequence
while brace-prefixed non-JSON stays the literal string. -/
theorem c5_parse_arg_value_branches :
    (∀ raw : String, pyStrip raw = "" → parse_arg_value raw = JValue.str "")
  ∧ (∀ raw : String, pyStrip raw ≠ "" →
      startsWithChar (pyStrip raw) '\x7b' = false →
      startsWithChar (pyStrip raw) '[' = false →
      parse_arg_value raw = JValue.str raw)
  ∧ (∀ (raw : String) (v : JValue),
      (startsWithChar (pyStrip raw) '\x7b' || startsWithChar (pyStrip raw) '[') = true →
      jsonLoads (pyStrip raw) = some v →
      parse_arg_value raw = v)
  ∧ (∀ raw : String,
      (startsWithChar (pyStrip raw) '\x7b' || startsWithChar (pyStrip raw) '[') = true →
      jsonLoads (pyStrip raw) = none →
      parse_arg_value raw = JValue.str raw)
  ∧ parse_arg_value "[1, 2, 3]" = JValue.arr [JValue.num 1, JValue.num 2, JValue.num 3]
  ∧ parse_arg_value "not json but has \x7b brace"
      = JValue.str "not json but has \x7b brace" :=
  ⟨parse_arg_value_of_trim_empty, parse_arg_value_passthrough,
    parse_arg_value_json_ok, parse_arg_value_json_fail, rfl, rfl⟩

theorem c5_parse_arg_value_branches_witness :
    pyStrip "  " = "" ∧ parse_arg_value "  " = JValue.str "" :=
  ⟨by decide, c5_parse_arg_value_branches.1 "  " (by decide)⟩

theorem parseMembers_shape (fuel : Nat) :
    ∀ (cs : List Char) (acc : Obj) (v : JValue) (r : List Char),
      parseMembers fuel cs acc = some (v, r) → ∃ o, v = JValue.obj o := by
  induction fuel with
  | zero =>
    intro cs acc v r h
    exact absurd h (by simp [parseMembers])
  | succ n ih =>
    intro cs acc v r h
    simp only [parseMembers] at h
    repeat' split at h
    all_goals first
      | exact Option.noConfusion h
      | exact ih _ _ _ _ h
      | (simp only [Option.some.injEq, Prod.mk.injEq] at h
         exact ⟨_, h.1.symm⟩)

theorem parseObjectRest_shape (fuel : Nat) (cs : List Char) (v : JValue) (r : List Char)
    (h : parseObjectRest fuel cs = some (v, r)) : ∃ o, v = JValue.obj o := by
  cases fuel with
  | zero => exact absurd h (by simp [parseObjectRest])
  | succ n =>
    simp only [parseObjectRest] at h
    split at h
    · simp only [Option.some.injEq, Prod.mk.injEq] at h
      exact ⟨[], h.1.symm⟩
    · exact parseMembers_shape n _ _ _ _ h

theorem parseItems_shape (fuel : Nat) :
    ∀ (cs : List Char) (acc : List JValue) (v : JValue) (r : List Char),
      parseItems fuel cs acc = some (v, r) → ∃ a, v = JValue.arr a := by
  induction fuel with
  | zero =>
    intro cs acc v r h
    exact absurd h (by simp [parseItems])
  | succ n ih =>
    intro cs acc v r h
    simp only [parseItems] at h
    repeat' split at h
    all_goals first
      | exact Option.noConfusion h
      | exact ih _ _ _ _ h
      | (simp only [Option.some.injEq, Prod.mk.injEq] at h
         exact ⟨_, h.1.symm⟩)

theorem parseArrayRest_shape (fuel : Nat) (cs : List Char) (v : JValue) (r : List Char)
    (h : parseArrayRest fuel cs = some (v, r)) : ∃ a, v = JValue.arr a := by
  cases fuel with
  | zero => exact absurd h (by simp [parseArrayRest])
  | succ n =>
    simp only [parseArrayRest] at h
    split at h
    · simp only [Option.some.injEq, Prod.mk.injEq] at h
      exact ⟨[], h.1.symm⟩
    · exact parseItems_shape n _ _ _ _ h

theorem parseValue_openBrace (fuel : Nat) (rest : List Char) :
    parseValue (fuel + 1) ('\x7b' :: rest) = parseObjectRest fuel (skipWs rest) := rfl

theorem parseValue_openBracket (fuel : Nat) (rest : List Char) :
    parseValue (fuel + 1) ('[' :: rest) = parseArrayRest fuel (skipWs rest) := rfl

/-- A JSON document starting with an opening brace decodes to a mapping. -/
theorem jsonLoads_shape_obj (s : String) (v : JValue)
    (hs : startsWithChar s '\x7b' = true) (h : jsonLoads s = some v) :
    ∃ o, v = JValue.obj o := by
  obtain ⟨rest, hd⟩ : ∃ rest, s.data = '\x7b' :: rest := by
    cases hdata : s.data with
    | nil =>
      unfold startsWithChar at hs
      rw [hdata] at hs
      simp at hs
    | cons c rest =>
      unfold startsWithChar at hs
      rw [hdata] at hs
      simp at hs
      exact ⟨rest, by rw [hs]⟩
  unfold jsonLoads at h
  rw [hd] at h
  have hsk : skipWs ('\x7b' :: rest) = '\x7b' :: rest := rfl
  rw [hsk] at h
  obtain ⟨m, hm⟩ : ∃ m, 3 * s.length + 16 = m + 1 := ⟨3 * s.length + 15, by omega⟩
  rw [hm, parseValue_openBrace] at h
  cases hpv : parseObjectRest m (skipWs rest) with
  | none =>
    rw [hpv] at h
    exact Option.noConfusion h
  | some p =>
    obtain ⟨v', r'⟩ := p
    rw [hpv] at h
    dsimp only at h
    split at h
    · simp only [Option.some.injEq] at h
      subst h
      exact parseObjectRest_shape m _ _ _ hpv
    · exact Option.noConfusion h

/-- A JSON document starting with an opening bracket decodes to a sequence. -/
theorem jsonLoads_shape_arr (s : String) (v : JValue)
    (hs : startsWithChar s '[' = true) (h : jsonLoads s = some v) :
    ∃ a, v = JValue.arr a := by
  obtain ⟨rest, hd⟩ : ∃ rest, s.data = '[' :: rest := by
    cases hdata : s.data with
    | nil =>
      unfold startsWithChar at hs
      rw [hdata] at hs
      simp at hs
    | cons c rest =>
      unfold startsWithChar at hs
      rw [hdata] at hs
      simp at hs
      exact ⟨rest, by rw [hs]⟩
  unfold jsonLoads at h
  rw [hd] at h
  have hsk : skipWs ('[' :: rest) = '[' :: rest := rfl
  rw [hsk] at h
  obtain ⟨m, hm⟩ : ∃ m, 3 * s.length + 16 = m + 1 := ⟨3 * s.length + 15, by omega⟩
  rw [hm, parseValue_openBracket] at h
  cases hpv : parseArrayRest m (skipWs rest) with
  | none =>
    rw [hpv] at h
    exact Option.noConfusion h
  | some p =>
    obtain ⟨v', r'⟩ := p
    rw [hpv] at h
    dsimp only at h
    split at h
    · simp only [Option.some.injEq] at h
      subst h
      exact parseArrayRest_shape m _ _ _ hpv
    · exact Option.noConfusion h

/-- `parse_arg_value` only ever produces a string, a mapping, or a sequence:
JSON decoding is attempted only on brace- or bracket-prefixed text, whose
decoded value is a mapping or sequence, and every other branch returns a
string — so a number, boolean or null is never decoded back. -/
theorem parse_arg_value_shape (raw : String) :
    (∃ s, parse_arg_value raw = JValue.str s)
      ∨ (∃ o, parse_arg_value raw = JValue.obj o)
      ∨ (∃ a, parse_arg_value raw = JValue.arr a) := by
  by_cases h0 : pyStrip raw = ""
  · exact Or.inl ⟨"", parse_arg_value_of_trim_empty raw h0⟩
  · by_cases hb : (startsWithChar (pyStrip raw) '\x7b' || startsWithChar (pyStrip raw) '[') = true
    · cases hj : jsonLoads (pyStrip raw) with
      | none => exact Or.inl ⟨raw, parse_arg_value_json_fail raw hb hj⟩
      | some v =>
        have hv := parse_arg_value_json_ok raw v hb hj
        have hb2 : startsWithChar (pyStrip raw) '\x7b' = true
            ∨ startsWithChar (pyStrip raw) '[' = true := by
          simpa using hb
        rcases hb2 with h1 | h1
        · obtain ⟨o, rfl⟩ := jsonLoads_shape_obj _ _ h1 hj
          exact Or.inr (Or.inl ⟨o, hv⟩)
        · obtain ⟨a, rfl⟩ := jsonLoads_shape_arr _ _ h1 hj
          exact Or.inr (Or.inr ⟨a, hv⟩)
    · have hb2 : startsWithChar (pyStrip raw) '\x7b' = false
          ∧ startsWithChar (pyStrip raw) '[' = false := by
        simpa [not_or] using hb
      exact Or.inl ⟨raw, parse_arg_value_passthrough raw h0 hb2.1 hb2.2⟩

/-- Claim C1 counterexample: the round trip fails for number and boolean
leaves — decoding never infers numbers or booleans from plain text, so
`parse_arg_value (value_to_text 5)` is the string `"5"`, not the number `5`,
and likewise for `True`; it also fails for the plain whitespace string
`" "` (a scalar string, not a structured value stored as a string), which
decodes to the empty string. -/
theorem c1_roundtrip_counterexample :
    parse_arg_value (value_to_text (JValue.num 5)) ≠ JValue.num 5
      ∧ parse_arg_value (value_to_text (JValue.bool true)) ≠ JValue.bool true
      ∧ parse_arg_value (value_to_text (JValue.str " ")) ≠ JValue.str " "
      ∧ parse_arg_value (value_to_text (JValue.num 5)) = JValue.str "5"
      ∧ parse_arg_value (value_to_text (JValue.bool true)) = JValue.str "true"
      ∧ parse_arg_value (value_to_text (JValue.str " ")) = JValue.str "" := by
  have h1 : parse_arg_value (value_to_text (JValue.num 5)) = JValue.str "5" := rfl
  have h2 : parse_arg_value (value_to_text (JValue.bool true)) = JValue.str "true" := rfl
  have h3 : parse_arg_value (value_to_text (JValue.str " ")) = JValue.str "" := rfl
  refine ⟨?_, ?_, ?_, h1, h2, h3⟩
  · rw [h1]
    exact fun h => nomatch h
  · rw [h2]
    exact fun h => nomatch h
  · rw [h3]
    intro h
    injection h with h4
    exact absurd h4 (by decide)

/-- Claim C1 as amended: for a string leaf the encode/decode round trip
holds if and only if the string is empty, or its trimmed form is nonempty
and either does not begin with a brace or bracket or fails strict JSON
decoding (so only whitespace-collapsing strings and strings holding a
decodable JSON structure fail).  Number and boolean leaves never round-trip:
the decoded value is always a string, mapping or sequence. -/
theorem c1_roundtrip_string_leaves :
    (∀ s : String,
      parse_arg_value (value_to_text (JValue.str s)) = JValue.str s ↔
        (s = "" ∨ (pyStrip s ≠ ""
          ∧ ((startsWithChar (pyStrip s) '\x7b' = false
                ∧ startsWithChar (pyStrip s) '[' = false)
              ∨ jsonLoads (pyStrip s) = none))))
  ∧ (∀ n : Int, parse_arg_value (value_to_text (JValue.num n)) ≠ JValue.num n)
  ∧ (∀ b : Bool, parse_arg_value (value_to_text (JValue.bool b)) ≠ JValue.bool b) := by
  refine ⟨?_, ?_, ?_⟩
  · intro s
    have hv : value_to_text (JValue.str s) = s := rfl
    rw [hv]
    constructor
    · intro hrt
      by_cases h0 : pyStrip s = ""
      · left
        rw [parse_arg_value_of_trim_empty s h0] at hrt
        injection hrt with h4
        exact h4.symm
      · right
        refine ⟨h0, ?_⟩
        by_cases hb : (startsWithChar (pyStrip s) '\x7b' || startsWithChar (pyStrip s) '[') = true
        · right
          cases hj : jsonLoads (pyStrip s) with
          | none => rfl
          | some v =>
            exfalso
            rw [parse_arg_value_json_ok s v hb hj] at hrt
            have hb2 : startsWithChar (pyStrip s) '\x7b' = true
                ∨ startsWithChar (pyStrip s) '[' = true := by
              simpa using hb
            rcases hb2 with h1 | h1
            · obtain ⟨o, rfl⟩ := jsonLoads_shape_obj _ _ h1 hj
              exact JValue.noConfusion hrt
            · obtain ⟨a, rfl⟩ := jsonLoads_shape_arr _ _ h1 hj
              exact JValue.noConfusion hrt
        · left
          simpa [not_or] using hb
    · intro hcond
      rcases hcond with rfl | ⟨h0, hcase⟩
      · rfl
      · rcases hcase with ⟨h1, h2⟩ | hnone
        · exact parse_arg_value_passthrough s h0 h1 h2
        · by_cases hb : (startsWithChar (pyStrip s) '\x7b' || startsWithChar (pyStrip s) '[') = true
          · exact parse_arg_value_json_fail s hb hnone
          · have hb2 : startsWithChar (pyStrip s) '\x7b' = false
                ∧ startsWithChar (pyStrip s) '[' = false := by
              simpa [not_or] using hb
            exact parse_arg_value_passthrough s h0 hb2.1 hb2.2
  · intro n
    rcases parse_arg_value_shape (value_to_text (JValue.num n)) with ⟨t, ht⟩ | ⟨o, ho⟩ | ⟨a, ha⟩
    · rw [ht]
      exact fun h => nomatch h
    · rw [ho]
      exact fun h => nomatch h
    · rw [ha]
      exact fun h => nomatch h
  · intro b
    rcases parse_arg_value_shape (value_to_text (JValue.bool b)) with ⟨t, ht⟩ | ⟨o, ho⟩ | ⟨a, ha⟩
    · rw [ht]
      exact fun h => nomatch h
    · rw [ho]
      exact fun h => nomatch h
    · rw [ha]
      exact fun h => nomatch h

theorem c1_roundtrip_string_leaves_witness :
    parse_arg_value (value_to_text (JValue.str "\x7boops")) = JValue.str "\x7boops"
      ∧ parse_arg_value (value_to_text (JValue.num 5)) ≠ JValue.num 5 :=
  ⟨(c1_roundtrip_string_leaves.1 "\x7boops").mpr
      (Or.inr ⟨by decide, Or.inr (by rfl)⟩),
    c1_roundtrip_string_leaves.2.1 5⟩

/-- The document of claim C2: a well-formed target store alongside the
source store `{"name": "weird", "args": {"k": "v"}}`. -/
def c2Config : Obj :=
  [("target_store", JValue.obj [("name", JValue.str "cosine_similarity"), ("args", JValue.obj [])]),
   ("source_store", JValue.obj [("name", JValue.str "weird"), ("args", JValue.obj [("k", JValue.str "v")])])]

/-- `c2Config` after normalization: the source store is rewritten to
`{"name": "custom", "args": {}}`. -/
def c2Normalized : Obj :=
  [("target_store", JValue.obj [("name", JValue.str "cosine_similarity"), ("args", JValue.obj [])]),
   ("source_store", JValue.obj [("name", JValue.str "custom"), ("args", JValue.obj [])])]

/-- A document whose only defect is a non-empty source-store `args`. -/
def c2ArgsOnlyConfig : Obj :=
  [("target_store", JValue.obj [("name", JValue.str "cosine_similarity"), ("args", JValue.obj [])]),
   ("source_store", JValue.obj [("name", JValue.str "custom"), ("args", JValue.obj [("k", JValue.str "v")])])]

/-- Claim C2 counterexample: normalizing a document whose source store is
`{"name": "weird", "args": {"k": "v"}}` (with an already well-formed target
store) rewrites it to `{"name": "custom", "args": {}}` but emits exactly ONE
note — the args-clearing branch at helpers.py lines 237-238 appends no note —
refuting the claimed two notes. -/
theorem c2_normalize_notes_counterexample :
    normalize_store_config c2Config
        = (c2Normalized, ["source store forced to \x27custom\x27 (only supported option)"])
      ∧ (normalize_store_config c2Config).2.length ≠ 2 :=
  ⟨rfl, by decide⟩

/-- Claim C2 as amended: that document normalizes to source store
`{"name": "custom", "args": {}}` with exactly one note (for forcing the
name); the args-clearing rule changes the document but produces no note, as
shown by the args-only document normalizing with an empty note list; an
already-normal document also produces no notes. -/
theorem c2_normalize_source_store_notes :
    normalize_store_config c2Config
        = (c2Normalized, ["source store forced to \x27custom\x27 (only supported option)"])
      ∧ normalize_store_config c2ArgsOnlyConfig = (c2Normalized, [])
      ∧ normalize_store_config c2Normalized = (c2Normalized, [])
      ∧ normalize_store_config
          [("source_store", JValue.obj
              [("name", JValue.str "weird"), ("args", JValue.obj [("k", JValue.str "v")])])]
        = ([("source_store", JValue.obj [("name", JValue.str "custom"), ("args", JValue.obj [])]),
            ("target_store", JValue.obj
              [("name", JValue.str "cosine_similarity"), ("args", JValue.obj [])])],
           ["target store set to cosine_similarity (missing section)",
            "source store forced to \x27custom\x27 (only supported option)"]) :=
  ⟨rfl, rfl, rfl, rfl⟩

theorem merge_dict_cons (base : Obj) (k' : String) (v' : JValue) (rest : Obj) :
    merge_dict base ((k', v') :: rest) =
      merge_dict (Obj.set base k'
        (match v', asObj (Obj.get? base k') with
         | JValue.obj o2, some o1 => JValue.obj (merge_dict o1 o2)
         | _, _ => v')) rest := by
  cases v' <;> simp only [merge_dict]
  cases h : asObj (Obj.get? base k') <;> simp [merge_dict, h]

/-- Pointwise description of `merge_dict`: for duplicate-free overrides, a
key absent from the overrides keeps its base binding; a key bound to a
mapping on both sides gets the recursive merge; any other key bound in the
overrides gets the override value outright. -/
theorem merge_dict_lookup (base overrides : Obj) (k : String)
    (hnd : (Obj.keys overrides).Nodup) :
    Obj.get? (merge_dict base overrides) k =
      match Obj.get? overrides k with
      | none => Obj.get? base k
      | some (JValue.obj o2) =>
        match asObj (Obj.get? base k) with
        | some o1 => some (JValue.obj (merge_dict o1 o2))
        | none => some (JValue.obj o2)
      | some v => some v := by
  induction overrides generalizing base with
  | nil => simp [merge_dict, Obj.get?]
  | cons hd tl ih =>
    obtain ⟨k', v'⟩ := hd
    simp only [Obj.keys, List.map_cons, List.nodup_cons] at hnd
    obtain ⟨hk', hnd'⟩ := hnd
    rw [merge_dict_cons, ih _ hnd']
    by_cases hkk : k = k'
    · subst hkk
      have hrest : Obj.get? tl k = none :=
        Obj.get?_eq_none_of_not_mem_keys tl k (by simpa [Obj.keys] using hk')
      have hov : Obj.get? ((k, v') :: tl) k = some v' := by simp [Obj.get?]
      rw [hrest, hov]
      simp only [Obj.get?_set_self]
      cases v' <;> cases hb : asObj (Obj.get? base k) <;> simp [hb]
    · have hne : k' ≠ k := fun h => hkk h.symm
      have hov : Obj.get? ((k', v') :: tl) k = Obj.get? tl k := by
        simp [Obj.get?, hne]
      rw [Obj.get?_set_ne base k' k _ hne, hov]

/-- Claim C3: `merge_dict` is right-biased on type mismatch and recursive on
matching mapping types — stated pointwise for duplicate-free overrides, and
at the two concrete examples from the specification. -/
theorem c3_merge_dict_semantics :
    (∀ (base overrides : Obj) (k : String), (Obj.keys overrides).Nodup →
      Obj.get? (merge_dict base overrides) k =
        match Obj.get? overrides k with
        | none => Obj.get? base k
        | some (JValue.obj o2) =>
          match asObj (Obj.get? base k) with
          | some o1 => some (JValue.obj (merge_dict o1 o2))
          | none => some (JValue.obj o2)
        | some v => some v)
  ∧ merge_dict [("x", JValue.obj [("a", JValue.num 1)])] [("x", JValue.num 5)]
      = [("x", JValue.num 5)]
  ∧ merge_dict [("x", JValue.obj [("a", JValue.num 1), ("b", JValue.num 2)])]
        [("x", JValue.obj [("b", JValue.num 9)])]
      = [("x", JValue.obj [("a", JValue.num 1), ("b", JValue.num 9)])] := by
  refine ⟨fun base overrides k h => merge_dict_lookup base overrides k h, ?_, ?_⟩
  · simp [merge_dict, Obj.get?, Obj.set, asObj]
  · simp [merge_dict, Obj.get?, Obj.set, asObj]

theorem c3_merge_dict_semantics_witness :
    (Obj.keys [("a", JValue.num 2)]).Nodup
      ∧ Obj.get? (merge_dict [("a", JValue.num 1)] [("a", JValue.num 2)]) "a"
          = some (JValue.num 2) := by
  refine ⟨by decide, ?_⟩
  have h := c3_merge_dict_semantics.1 [("a", JValue.num 1)] [("a", JValue.num 2)] "a" (by decide)
  simpa [Obj.get?, asObj] using h

/-- Claim C6: applying a raw JSON override whose top-level decoded value is
not a mapping fails with the validation error and returns the document
unchanged (the merge is never reached, so no partial merge is visible); when
the top-level value is a mapping, the merge is applied. -/
theorem c6_apply_overrides_validation :
    (∀ (config : Obj) (text : String) (v : JValue),
      jsonLoads text = some v → asObj (some v) = none →
      apply_overrides config text = (config, some "Overrides must be a JSON object"))
  ∧ (∀ (config : Obj) (text : String) (o : Obj),
      jsonLoads text = some (JValue.obj o) →
      apply_overrides config text = (merge_dict config o, none)) := by
  constructor
  · intro config text v hj hv
    unfold apply_overrides
    rw [hj]
    cases v <;> simp_all [asObj]
  · intro config text o hj
    unfold apply_overrides
    rw [hj]

theorem c6_apply_overrides_validation_witness :
    jsonLoads "[1]" = some (JValue.arr [JValue.num 1])
      ∧ apply_overrides [("x", JValue.num 1)] "[1]"
          = ([("x", JValue.num 1)], some "Overrides must be a JSON object") :=
  ⟨rfl, c6_apply_overrides_validation.1 [("x", JValue.num 1)] "[1]"
    (JValue.arr [JValue.num 1]) rfl rfl⟩

theorem ensure_section_cons (config : Obj) (key : String) (rest : List String)
    (default : JValue) (h : rest ≠ []) :
    ensure_section config (key :: rest) default =
      match ensure_section
          (match asObj (Obj.get? config key) with
           | some o => o
           | none => []) rest default with
      | some (child', v) => some (Obj.set config key (JValue.obj child'), v)
      | none => none := by
  cases rest with
  | nil => exact absurd rfl h
  | cons r rs => rfl

/-- Claim C7: `ensure_section` is idempotent — whenever a call returns a
document and node, repeating the call with the same path and default on the
returned document changes nothing and returns the same node. -/
theorem c7_ensure_section_idempotent (path : List String) (config : Obj)
    (default : JValue) (c' : Obj) (v : JValue)
    (h : ensure_section config path default = some (c', v)) :
    ensure_section c' path default = some (c', v) := by
  induction path generalizing config c' v with
  | nil => simp [ensure_section] at h
  | cons key rest ih =>
    cases rest with
    | nil =>
      cases hg : Obj.get? config key with
      | some w =>
        simp [ensure_section, hg] at h
        obtain ⟨rfl, rfl⟩ := h
        simp [ensure_section, hg]
      | none =>
        simp [ensure_section, hg] at h
        obtain ⟨rfl, rfl⟩ := h
        simp [ensure_section, Obj.get?_set_self]
    | cons r rs =>
      rw [ensure_section_cons config key (r :: rs) default (by simp)] at h
      cases he : ensure_section
          (match asObj (Obj.get? config key) with
           | some o => o
           | none => []) (r :: rs) default with
      | none => rw [he] at h; simp at h
      | some p =>
        obtain ⟨child', w⟩ := p
        rw [he] at h
        simp only [Option.some.injEq, Prod.mk.injEq] at h
        obtain ⟨rfl, rfl⟩ := h.symm
        rw [ensure_section_cons _ key (r :: rs) default (by simp)]
        rw [Obj.get?_set_self]
        simp only [asObj]
        rw [ih _ _ _ he]
        simp [Obj.set_set_same]

theorem c7_ensure_section_idempotent_witness :
    ensure_section [] ["a"] (JValue.num 1) = some ([("a", JValue.num 1)], JValue.num 1)
      ∧ ensure_section [("a", JValue.num 1)] ["a"] (JValue.num 1)
          = some ([("a", JValue.num 1)], JValue.num 1) :=
  ⟨rfl, c7_ensure_section_idempotent ["a"] [] (JValue.num 1) _ _ rfl⟩

/-- Specification-side reading of a nested path: succeeds only when every key
on the path is present and bound to a mapping. -/
def Obj.walk (o : Obj) : List String → Option Obj
  | [] => some o
  | k :: rest =>
    match asObj (Obj.get? o k) with
    | some child => Obj.walk child rest
    | none => none

theorem asObj_eq_some (x : Option JValue) (o : Obj) (h : asObj x = some o) :
    x = some (JValue.obj o) := by
  cases x with
  | none => simp [asObj] at h
  | some v => cases v <;> simp_all [asObj]

theorem ensure_section_existing_leaf (keys : List String) (config inner : Obj)
    (leaf : String) (default v : JValue)
    (hw : Obj.walk config keys = some inner) (hv : Obj.get? inner leaf = some v) :
    ensure_section config (keys ++ [leaf]) default = some (config, v) := by
  induction keys generalizing config inner with
  | nil =>
    simp only [Obj.walk, Option.some.injEq] at hw
    subst hw
    simp [ensure_section, hv]
  | cons k rest ih =>
    simp only [Obj.walk] at hw
    cases hg : asObj (Obj.get? config k) with
    | none => rw [hg] at hw; simp at hw
    | some child =>
      rw [hg] at hw
      simp only at hw
      have hrec := ih child inner hw hv
      rw [List.cons_append,
        ensure_section_cons config k (rest ++ [leaf]) default (by simp)]
      rw [hg, hrec]
      have hcfg : Obj.set config k (JValue.obj child) = config :=
        Obj.set_get_eq config k (JValue.obj child) (asObj_eq_some _ _ hg)
      simp [hcfg]

/-- Claim C10: `ensure_section` never replaces an existing value at the
terminal key — when every non-terminal key leads through mappings and the
terminal key is already present (bound to any value, mapping or not), the
call returns that existing value and leaves the document unchanged; a
non-mapping value at a non-terminal key, by contrast, is destructively
replaced by a fresh mapping holding the ensured leaf. -/
theorem c10_ensure_section_keeps_existing :
    (∀ (keys : List String) (config inner : Obj) (leaf : String) (default v : JValue),
      Obj.walk config keys = some inner → Obj.get? inner leaf = some v →
      ensure_section config (keys ++ [leaf]) default = some (config, v))
  ∧ (∀ (config : Obj) (k leaf : String) (default : JValue),
      asObj (Obj.get? config k) = none →
      ensure_section config [k, leaf] default
        = some (Obj.set config k (JValue.obj [(leaf, default)]), default)) := by
  constructor
  · exact ensure_section_existing_leaf
  · intro config k leaf default hg
    rw [ensure_section_cons config k [leaf] default (by simp), hg]
    rfl

theorem c10_ensure_section_keeps_existing_witness :
    Obj.walk [("a", JValue.obj [("b", JValue.num 7)])] ["a"] = some [("b", JValue.num 7)]
      ∧ Obj.get? [("b", JValue.num 7)] "b" = some (JValue.num 7)
      ∧ ensure_section [("a", JValue.obj [("b", JValue.num 7)])] (["a"] ++ ["b"])
          (JValue.obj []) = some ([("a", JValue.obj [("b", JValue.num 7)])], JValue.num 7) :=
  ⟨rfl, rfl,
    c10_ensure_section_keeps_existing.1 ["a"] [("a", JValue.obj [("b", JValue.num 7)])]
      [("b", JValue.num 7)] "b" (JValue.obj []) (JValue.num 7) rfl rfl⟩

/-- A document whose target store needs no repair: present as a mapping, not
named `"custom"`, with a mapping `args`. -/
def targetNormal (c : Obj) : Prop :=
  ∃ ts, Obj.get? c "target_store" = some (JValue.obj ts)
    ∧ getEqStr (Obj.get? ts "name") "custom" = false
    ∧ asObj (Obj.get? ts "args") ≠ none

/-- A document whose source store needs no repair: present as a mapping,
named `"custom"`, with a falsy `args`. -/
def sourceNormal (c : Obj) : Prop :=
  ∃ ss, Obj.get? c "source_store" = some (JValue.obj ss)
    ∧ getEqStr (Obj.get? ss "name") "custom" = true
    ∧ truthy (Obj.get? ss "args") = false

theorem normalize_target_normal (c : Obj) : targetNormal (normalize_target c).1 := by
  unfold normalize_target
  cases hts : asObj (Obj.get? c "target_store") with
  | none =>
    exact ⟨[("name", JValue.str "cosine_similarity"), ("args", JValue.obj [])],
      Obj.get?_set_self _ _ _, rfl, by simp [Obj.get?, asObj]⟩
  | some ts =>
    dsimp only
    by_cases hr : getEqStr (Obj.get? ts "name") "custom" = true
    · rw [if_pos hr]
      cases hargs : asObj (Obj.get? (Obj.set ts "name" (JValue.str "cosine_similarity")) "args") with
      | some a =>
        refine ⟨Obj.set ts "name" (JValue.str "cosine_similarity"),
          Obj.get?_set_self _ _ _, ?_, ?_⟩
        · rw [Obj.get?_set_self]
          rfl
        · rw [hargs]
          simp
      | none =>
        refine ⟨Obj.set (Obj.set ts "name" (JValue.str "cosine_similarity")) "args"
            (JValue.obj []), Obj.get?_set_self _ _ _, ?_, ?_⟩
        · rw [Obj.get?_set_ne _ _ _ _ (by decide), Obj.get?_set_self]
          rfl
        · rw [Obj.get?_set_self]
          simp [asObj]
    · rw [if_neg hr]
      have hr' : getEqStr (Obj.get? ts "name") "custom" = false := by
        simpa using hr
      cases hargs : asObj (Obj.get? ts "args") with
      | some a =>
        refine ⟨ts, Obj.get?_set_self _ _ _, hr', ?_⟩
        rw [hargs]
        simp
      | none =>
        refine ⟨Obj.set ts "args" (JValue.obj []), Obj.get?_set_self _ _ _, ?_, ?_⟩
        · rw [Obj.get?_set_ne _ _ _ _ (by decide)]
          exact hr'
        · rw [Obj.get?_set_self]
          simp [asObj]

theorem normalize_source_normal (c : Obj) : sourceNormal (normalize_source c).1 := by
  unfold normalize_source
  cases hss : asObj (Obj.get? c "source_store") with
  | none =>
    exact ⟨[("name", JValue.str "custom"), ("args", JValue.obj [])],
      Obj.get?_set_self _ _ _, rfl, rfl⟩
  | some ss =>
    dsimp only
    by_cases hf : getEqStr (Obj.get? ss "name") "custom" = true
    · rw [hf]
      simp only [Bool.not_true, Bool.false_eq_true, if_false]
      by_cases ht : truthy (Obj.get? ss "args") = true
      · rw [if_pos ht]
        refine ⟨Obj.set ss "args" (JValue.obj []), Obj.get?_set_self _ _ _, ?_, ?_⟩
        · rw [Obj.get?_set_ne _ _ _ _ (by decide)]
          exact hf
        · rw [Obj.get?_set_self]
          rfl
      · rw [if_neg ht]
        exact ⟨ss, Obj.get?_set_self _ _ _, hf, by simpa using ht⟩
    · have hf' : getEqStr (Obj.get? ss "name") "custom" = false := by simpa using hf
      rw [hf']
      simp only [Bool.not_false, if_true]
      by_cases ht : truthy (Obj.get? (Obj.set ss "name" (JValue.str "custom")) "args") = true
      · rw [if_pos ht]
        refine ⟨Obj.set (Obj.set ss "name" (JValue.str "custom")) "args" (JValue.obj []),
          Obj.get?_set_self _ _ _, ?_, ?_⟩
        · rw [Obj.get?_set_ne _ _ _ _ (by decide), Obj.get?_set_self]
          rfl
        · rw [Obj.get?_set_self]
          rfl
      · rw [if_neg ht]
        refine ⟨Obj.set ss "name" (JValue.str "custom"), Obj.get?_set_self _ _ _, ?_,
          by simpa using ht⟩
        rw [Obj.get?_set_self]
        rfl

theorem normalize_target_of_normal (c : Obj) (h : targetNormal c) :
    normalize_target c = (c, []) := by
  obtain ⟨ts, hts, hname, hargs⟩ := h
  unfold normalize_target
  have hobj : asObj (Obj.get? c "target_store") = some ts := by
    rw [hts]
    rfl
  rw [hobj]
  dsimp only
  rw [hname]
  simp only [Bool.false_eq_true, if_false]
  cases ha : asObj (Obj.get? ts "args") with
  | none => exact absurd ha hargs
  | some a =>
    dsimp only
    rw [Obj.set_get_eq c "target_store" (JValue.obj ts) hts]

theorem normalize_source_of_normal (c : Obj) (h : sourceNormal c) :
    normalize_source c = (c, []) := by
  obtain ⟨ss, hss, hname, hargs⟩ := h
  unfold normalize_source
  have hobj : asObj (Obj.get? c "source_store") = some ss := by
    rw [hss]
    rfl
  rw [hobj]
  dsimp only
  rw [hname]
  simp only [Bool.not_true, Bool.false_eq_true, if_false]
  rw [if_neg (by simp [hargs])]
  rw [Obj.set_get_eq c "source_store" (JValue.obj ss) hss]

theorem normalize_source_preserves_target (c : Obj) :
    Obj.get? (normalize_source c).1 "target_store" = Obj.get? c "target_store" := by
  unfold normalize_source
  cases hss : asObj (Obj.get? c "source_store") with
  | none => exact Obj.get?_set_ne _ _ _ _ (by decide)
  | some ss => exact Obj.get?_set_ne _ _ _ _ (by decide)

/-- Claim C4: `normalize_store_config` is idempotent — the second application
returns the once-normalized document unchanged with an empty note list. -/
theorem c4_normalize_store_config_idempotent (config : Obj) :
    normalize_store_config (normalize_store_config config).1
      = ((normalize_store_config config).1, []) := by
  unfold normalize_store_config
  set c1 := (normalize_target config).1 with hc1
  set c2 := (normalize_source c1).1 with hc2
  have ht2 : targetNormal c2 := by
    obtain ⟨ts, hts, h1, h2⟩ := normalize_target_normal config
    refine ⟨ts, ?_, h1, h2⟩
    rw [hc2, normalize_source_preserves_target]
    exact hts
  have e1 : normalize_target c2 = (c2, []) := normalize_target_of_normal c2 ht2
  have e2 : normalize_source c2 = (c2, []) := normalize_source_of_normal c2 (normalize_source_normal c1)
  rw [e1]
  simp [e2]
